import Mathlib

/-!
# Verification of the `setup_string` directive-resolution engine

This file gives a shallow embedding, in Lean 4, of the directive-resolution
engine implemented in `src/setup_string.rs` of the `divinum-officium-rs`
repository, together with theorems settling the specification claims about it.

Modelling conventions:

* Rust `HashMap<String, String>` (`FileSections`) is modelled as an
  association list with unique keys; `insert` replaces in place or appends,
  `get` is the first-match lookup.  Iteration order of a Rust `HashMap` is
  unspecified; the association list fixes a deterministic order, and every
  concrete input used below is insensitive to that choice.
* The process-wide cache `cache_by_version` (a `HashMap` of `HashMap`s keyed
  by `"{version}::{lang}"` and then by file name) is modelled as a single
  association list keyed by the pair.  Creating an empty inner bucket (the
  `entry(..).or_insert_with(HashMap::new)` call) has no observable effect in
  this flattened model.
* Mutation of `self` (the cache) is modelled by explicit state passing: each
  cache-touching function returns its result together with the new cache.
* The unbounded Rust call recursion of `setupstring` (via fallback layers and
  `@file:...` inclusions) is modelled with an explicit fuel parameter that
  decreases at each nested `setupstring` call; fuel exhaustion yields `none`.
  Every terminating Rust execution is reproduced by a sufficiently large fuel.
* The file system behind `fileio::do_read` is modelled as a map from full
  path to the list of lines `do_read` would return.
* The regular expressions of the source are modelled by direct executable
  matchers implementing the semantics of the concrete patterns the source
  compiles.  The Unicode classes `\s`, `\w`, `\p{L}`, `\p{N}` are modelled by
  `Char.isWhitespace`, ASCII alphanumerics and `_`; all concrete inputs used
  in the theorems are ASCII, where the two coincide.  The dynamic fallback
  pattern of `predicate_matches` (an unrecognized predicate name compiled as
  a regex) is modelled for metacharacter-free patterns, where `is_match` is
  substring containment.  Rust byte offsets coincide with character offsets
  on ASCII text and are modelled as character offsets.
-/

namespace SetupString

/-! ## Basic string utilities -/

/-- ASCII lowercasing of a single character, the per-character behaviour of
Rust's `to_ascii_lowercase`. -/
def asciiLowerChar (c : Char) : Char :=
  if 65 ≤ c.toNat ∧ c.toNat ≤ 90 then Char.ofNat (c.toNat + 32) else c

/-- Rust `str::to_ascii_lowercase`. -/
def asciiLower (s : String) : String :=
  ⟨s.data.map asciiLowerChar⟩

/-- Rust `str::eq_ignore_ascii_case`. -/
def eqIgnoreAsciiCase (a b : String) : Bool :=
  asciiLower a = asciiLower b

/-- Character-list trim (drop whitespace from both ends), the behaviour of
Rust `str::trim`. -/
def trimList (l : List Char) : List Char :=
  ((l.dropWhile Char.isWhitespace).reverse.dropWhile Char.isWhitespace).reverse

/-- Rust `str::trim`. -/
def trimStr (s : String) : String :=
  ⟨trimList s.data⟩

/-- Word character for the purposes of the regex `\b` boundary (ASCII model
of the Unicode word class). -/
def isWordChar (c : Char) : Bool :=
  c.isAlphanum || c = '_'

/-- Does the first list start with the second? -/
def listStartsWith : List Char → List Char → Bool
  | _, [] => true
  | [], _ :: _ => false
  | a :: as, b :: bs => a = b && listStartsWith as bs

/-- Substring containment of `pat` in `hay` (semantics of `str::contains`,
and of `Regex::is_match` for a metacharacter-free pattern). -/
def containsSub (pat : List Char) : List Char → Bool
  | [] => listStartsWith [] pat
  | c :: t => listStartsWith (c :: t) pat || containsSub pat t

/-- Rust `str::contains` with a literal pattern. -/
def strContains (hay pat : String) : Bool :=
  containsSub pat.data hay.data

/-- Rust `str::starts_with` with a literal pattern. -/
def strStartsWith (s pat : String) : Bool :=
  listStartsWith s.data pat.data

/-- Split a character list at every occurrence of `sep` (auxiliary). -/
def splitOnCharAux (sep : Char) : List Char → List Char → List (List Char)
  | [], acc => [acc.reverse]
  | c :: cs, acc =>
    if c = sep then acc.reverse :: splitOnCharAux sep cs []
    else splitOnCharAux sep cs (c :: acc)

/-- Split a character list at every occurrence of `sep`.  This is the
splitting underlying both `str::lines` and the `(?m)^...$` line anchoring of
the inclusion-directive regex. -/
def splitOnChar (sep : Char) (l : List Char) : List (List Char) :=
  splitOnCharAux sep l []

/-- Join character-list pieces with a separator character; inverse of
`splitOnChar`. -/
def joinWith (sep : Char) : List (List Char) → List Char
  | [] => []
  | [x] => x
  | x :: y :: xs => x ++ sep :: joinWith sep (y :: xs)

/-- Join string pieces with newlines: `Vec::join("\n")` and the splicing
performed by `expand_inclusions_in_text`. -/
def joinLines : List String → String
  | [] => ""
  | [x] => x
  | x :: y :: xs => x ++ "\n" ++ joinLines (y :: xs)

/-- Drop the one trailing empty piece produced by a final newline, so that
`rustLines` agrees with Rust `str::lines`. -/
def dropLastEmpty : List (List Char) → List (List Char)
  | [] => []
  | [x] => if x.isEmpty then [] else [x]
  | x :: y :: xs => x :: dropLastEmpty (y :: xs)

/-- Rust `str::lines` (the inputs handled here contain no `\r`). -/
def rustLines (s : String) : List String :=
  (dropLastEmpty (splitOnChar '\n' s.data)).map fun l => ⟨l⟩

/-- Auxiliary scanner for `splitWhitespace`. -/
def splitWhitespaceAux : List Char → List Char → List String
  | [], acc => if acc.isEmpty then [] else [⟨acc.reverse⟩]
  | c :: cs, acc =>
    if c.isWhitespace then
      if acc.isEmpty then splitWhitespaceAux cs []
      else ⟨acc.reverse⟩ :: splitWhitespaceAux cs []
    else splitWhitespaceAux cs (c :: acc)

/-- Rust `str::split_whitespace`. -/
def splitWhitespace (s : String) : List String :=
  splitWhitespaceAux s.data []

/-- `List.drop` under its Rust slicing name. -/
def listDrop (n : Nat) (l : List Char) : List Char :=
  l.drop n

/-! ## Data model -/

/-- `ResolveDirectives` from `setup_string.rs`: how thoroughly `@...`
inclusions are expanded. -/
inductive ResolveDirectives
  | None
  | WholeFile
  | All
deriving DecidableEq, Repr

/-- `FileSections`: map from section title to resolved body, modelled as an
association list with unique keys (Rust: `HashMap<String, String>`). -/
def FileSections := List (String × String)
deriving DecidableEq

/-- The flattened model of `cache_by_version`: key is
(`"{version}::{lang}"`, file name). -/
def Cache := List ((String × String) × FileSections)
deriving DecidableEq

/-- `HashMap::get` on a `FileSections`. -/
def slookup : FileSections → String → Option String
  | [], _ => none
  | (k0, v0) :: rest, k => if k0 = k then some v0 else slookup rest k

/-- `HashMap::insert` on a `FileSections` (replace in place, else append). -/
def sinsert : FileSections → String → String → FileSections
  | [], k, v => [(k, v)]
  | (k0, v0) :: rest, k, v =>
    if k0 = k then (k0, v) :: rest else (k0, v0) :: sinsert rest k v

/-- `get_mut` followed by `push_str`: append to an entry when it exists,
otherwise leave the map unchanged. -/
def sappend : FileSections → String → String → FileSections
  | [], _, _ => []
  | (k0, v0) :: rest, k, v =>
    if k0 = k then (k0, v0 ++ v) :: rest else (k0, v0) :: sappend rest k v

/-- Cache lookup for key (`version_key`, `fname`). -/
def cacheLookup : Cache → String → String → Option FileSections
  | [], _, _ => none
  | (k0, v0) :: rest, vk, f => if k0 = (vk, f) then some v0 else cacheLookup rest vk f

/-- Cache insert for key (`version_key`, `fname`). -/
def cacheInsert : Cache → String → String → FileSections → Cache
  | [], vk, f, v => [((vk, f), v)]
  | (k0, v0) :: rest, vk, f, v =>
    if k0 = (vk, f) then (k0, v) :: rest else (k0, v0) :: cacheInsert rest vk f v

/-- `SetupStringContext` from `setup_string.rs`, with the file system behind
`fileio::do_read` made explicit (`fs` maps a full path to the lines `do_read`
returns).  The cache field is threaded separately as explicit state. -/
structure SetupStringContext where
  version : String
  datafolder : String
  missa_number : String
  dayofweek : Nat
  commune : String
  votive : String
  hora : String
  dayname : String × String
  fs : List (String × List String)
deriving DecidableEq

/-- `fileio::do_read` on the modelled file system: `none` is the "file not
found" outcome (the Rust caller treats every read error as absence). -/
def do_read (ctx : SetupStringContext) (path : String) : Option (List String) :=
  (ctx.fs.find? fun kv => kv.1 = path).map Prod.snd

/-- `make_full_path`: `<datafolder>/<lang>/<fname>`. -/
def make_full_path (ctx : SetupStringContext) (lang fname : String) : String :=
  ctx.datafolder ++ "/" ++ lang ++ "/" ++ fname

/-! ## Condition parser and evaluator (`vero` in the original Perl)

`split_on_word` models `Regex::split` with pattern `\b<word>\b`;
`split_preserving_operator` models the `find_iter` loop over
`(\bet\b|\bnisi\b)`.  Both are implemented as direct scanners realizing the
word-boundary semantics of those concrete patterns. -/

/-- Word-boundary occurrence test for the word `w0 :: wrest` at position
`c :: cs` (boundary before is given by `prevWord`, boundary after by the
character following the word, if any). -/
def wordMatchAt (w0 : Char) (wrest : List Char) (prevWord : Bool) (c : Char)
    (cs : List Char) : Bool :=
  !prevWord && c = w0 && listStartsWith cs wrest
    && (match listDrop wrest.length cs with
        | [] => true
        | d :: _ => !isWordChar d)

/-- Scanner for `split_on_word`: splits at each word-boundary occurrence of
the word `w0 :: wrest`, left to right, non-overlapping.  The `Nat` is a
skip counter consuming the tail of a just-matched word (keeping the
recursion structural); the boolean records whether the previous character
was a word character (boundary state). -/
def splitOnWordAux (w0 : Char) (wrest : List Char) :
    List Char → Nat → Bool → List Char → List (List Char)
  | [], _, _, acc => [acc.reverse]
  | c :: cs, skip + 1, _, acc =>
    splitOnWordAux w0 wrest cs skip (isWordChar c) acc
  | c :: cs, 0, prevWord, acc =>
    if wordMatchAt w0 wrest prevWord c cs then
      acc.reverse :: splitOnWordAux w0 wrest cs wrest.length true []
    else
      splitOnWordAux w0 wrest cs 0 (isWordChar c) (c :: acc)

/-- `split_on_word`: split `input` on `\b<word>\b` and trim each piece. -/
def split_on_word (input word : String) : List String :=
  match word.data with
  | [] => [trimStr input]
  | w0 :: wrest =>
    (splitOnWordAux w0 wrest input.data 0 false []).map fun l => trimStr ⟨l⟩

/-- Try to match operator word `w` at the position `c :: cs`, returning the
matched word when it matches with a word boundary after it (the boundary
before is checked by the caller). -/
def opMatchAt : List Char → Char → List Char → Bool
  | [], _, _ => false
  | w0 :: wrest, c, cs =>
    c = w0 && listStartsWith cs wrest
      && (match listDrop wrest.length cs with
          | [] => true
          | d :: _ => !isWordChar d)

/-- First operator of `ops` matching at `c :: cs` (alternation order of the
built regex). -/
def firstOpMatch (ops : List (List Char)) (c : Char) (cs : List Char) :
    Option (List Char) :=
  ops.find? fun w => opMatchAt w c cs

/-- Push a trimmed segment if non-empty (`split_preserving_operator`'s
segment handling). -/
def pushSegment (acc : List Char) (rest : List String) : List String :=
  let seg := trimList acc.reverse
  if seg.isEmpty then rest else (⟨seg⟩ : String) :: rest

/-- Scanner for `split_preserving_operator`.  The `Nat` is a skip counter
consuming the tail of a just-matched operator (keeping the recursion
structural). -/
def splitPreservingAux (ops : List (List Char)) :
    List Char → Nat → Bool → List Char → List String
  | [], _, _, acc => pushSegment acc []
  | c :: cs, skip + 1, _, acc =>
    splitPreservingAux ops cs skip (isWordChar c) acc
  | c :: cs, 0, prevWord, acc =>
    if !prevWord then
      match firstOpMatch ops c cs with
      | some w =>
        pushSegment acc ((⟨w⟩ : String) ::
          splitPreservingAux ops cs (w.length - 1) true [])
      | none => splitPreservingAux ops cs 0 (isWordChar c) (c :: acc)
    else
      splitPreservingAux ops cs 0 (isWordChar c) (c :: acc)

/-- `split_preserving_operator`: split on the operator words (with `\b`
boundaries), keeping the operators, trimming segments and dropping empty
ones.  The operator words used by the source (`et`, `nisi`) consist of word
characters, so the boundary state after a match is "word". -/
def split_preserving_operator (input : String) (operators : List String) :
    List String :=
  splitPreservingAux (operators.map String.data) input.data 0 false []

/-- `is_known_subject`. -/
def is_known_subject (s : String) : Bool :=
  [ "rubrica", "rubricis", "tempore", "missa", "commune", "communi",
    "votiva", "die", "feria", "officio", "ad" ].contains (asciiLower s)

/-- `parse_subject_predicate`: split a condition piece into subject and
predicate, defaulting the subject to `tempore`. -/
def parse_subject_predicate (text : String) : String × String :=
  match splitWhitespace text with
  | [] => ("tempore", "")
  | [w] => ("tempore", w)
  | w :: rest =>
    if is_known_subject w then (w, joinSpaces rest) else ("tempore", text)
where
  joinSpaces : List String → String
  | [] => ""
  | [x] => x
  | x :: y :: xs => x ++ " " ++ joinSpaces (y :: xs)

/-- `get_tempus_id`: the source's placeholder returns a constant season. -/
def get_tempus_id (_ctx : SetupStringContext) : String :=
  "post Pentecosten"

/-- `get_dayname_for_condition`: the source's placeholder returns `""`. -/
def get_dayname_for_condition (_ctx : SetupStringContext) : String :=
  ""

/-- `subject_value`: the value a subject word resolves to in the context. -/
def subject_value (ctx : SetupStringContext) (subj : String) : String :=
  match asciiLower subj with
  | "rubrica" => ctx.version
  | "rubricis" => ctx.version
  | "tempore" => get_tempus_id ctx
  | "missa" => ctx.missa_number
  | "commune" => ctx.commune
  | "communi" => ctx.commune
  | "votiva" => ctx.votive
  | "die" => get_dayname_for_condition ctx
  | "feria" => toString (ctx.dayofweek + 1)
  | "officio" => ctx.dayname.2
  | "ad" => if ctx.missa_number ≠ "" then "missam" else ctx.hora
  | _ => subj

/-- The names having a dedicated arm in `predicate_matches` (everything else
falls through to the regex fallback). -/
def predicate_table_names : List String :=
  [ "tridentina", "monastica", "innovata", "innovatis", "paschali",
    "post septuagesimam", "prima", "secunda", "tertia", "longior",
    "brevior", "summorum pontificum", "feriali" ]

/-- `Regex::is_match` for the dynamic fallback pattern, modelled for
metacharacter-free patterns as substring containment. -/
def regex_fallback_is_match (pat text : String) : Bool :=
  containsSub pat.data text.data

/-- `predicate_matches`: the predicate table of `setup_string.rs`.  The
table regexes (`(2020 USA|NewCal)`, `(Paschæ|Ascensionis|Octava
Pentecostes)`, `(Septua|Quadra|Passio)`, `^(Divino|1955|196)`,
`(feria|vigilia)`) are written out as their evident alternation/anchoring
semantics; unrecognized names fall back to a case-insensitive match of the
(lowercased) name against the lowercased subject value. -/
def predicate_matches (predicate subj_value : String) : Bool :=
  let pl := asciiLower predicate
  if pl = "tridentina" then strContains subj_value "Trident"
  else if pl = "monastica" then strContains subj_value "Monastic"
  else if pl = "innovata" ∨ pl = "innovatis" then
    strContains subj_value "2020 USA" || strContains subj_value "NewCal"
  else if pl = "paschali" then
    strContains subj_value "Paschæ" || strContains subj_value "Ascensionis"
      || strContains subj_value "Octava Pentecostes"
  else if pl = "post septuagesimam" then
    strContains subj_value "Septua" || strContains subj_value "Quadra"
      || strContains subj_value "Passio"
  else if pl = "prima" then subj_value = "1"
  else if pl = "secunda" then subj_value = "2"
  else if pl = "tertia" then subj_value = "3"
  else if pl = "longior" then subj_value = "1"
  else if pl = "brevior" then subj_value = "2"
  else if pl = "summorum pontificum" then
    strStartsWith subj_value "Divino" || strStartsWith subj_value "1955"
      || strStartsWith subj_value "196"
  else if pl = "feriali" then
    strContains subj_value "feria" || strContains subj_value "vigilia"
  else regex_fallback_is_match pl (asciiLower subj_value)

/-- One condition piece: parse subject/predicate and test the predicate
against the subject's value (the body of the term case in
`evaluate_sub_condition`). -/
def term_matches (ctx : SetupStringContext) (t : String) : Bool :=
  let sp := parse_subject_predicate t
  predicate_matches sp.2 (subject_value ctx sp.1)

/-- The token loop of `evaluate_sub_condition`: `et` is skipped, `nisi`
latches negation for all following terms, and a term failing
(`!matched ^ negation`) fails the whole AND-chain. -/
def evaluate_condition_tokens (ctx : SetupStringContext) :
    List String → Bool → Bool
  | [], _ => true
  | t :: ts, negation =>
    let tl := asciiLower (trimStr t)
    if tl = "et" then evaluate_condition_tokens ctx ts negation
    else if tl = "nisi" then evaluate_condition_tokens ctx ts true
    else
      let matched := term_matches ctx t
      if Bool.xor (!matched) negation then false
      else evaluate_condition_tokens ctx ts negation

/-- `evaluate_sub_condition`: an AND-chain with `nisi` negation. -/
def evaluate_sub_condition (ctx : SetupStringContext) (expr : String) : Bool :=
  evaluate_condition_tokens ctx (split_preserving_operator expr ["et", "nisi"])
    false

/-- `evaluate_condition` (`vero`): empty condition is vacuously true, `aut`
is a short-circuiting OR over sub-conditions. -/
def evaluate_condition (ctx : SetupStringContext) (expr : String) : Bool :=
  let cond := trimStr expr
  if cond = "" then true
  else (split_on_word cond "aut").any (evaluate_sub_condition ctx)

/-! ## The `conditional_regex` matcher

`conditional_regex()` builds (with `SCOPE_REGEX` spliced in)

`\(\s*((\b(?:sed|vero|atque|attamen|si|deinde)\b)*)?(.*?)((?ix)…scope…)?\s*\)`

Capture group 1 is the stopword sequence, group 2 the *inner* per-iteration
stopword group, group 3 the lazy "condition", group 4 the scope marker.  The
scope alternatives are all optional, so the lazy group 3 ends at the first
`)` after the opening `(`; consecutive `\b…\b` iterations consume no
separator, so group 1 matches at most one stopword, namely a stopword word
standing immediately after `\(\s*`.  Only groups 1 and 2 are ever read by
the callers (`cond_caps.get(2)` / `cap.get(1)`, `cap.get(2)`), so a match is
modelled as its span plus these two captures. -/

/-- One match of `conditional_regex`: character span `[startPos, endPos)` of
the whole match, group 1 (stopword sequence, possibly empty) and group 2
(the last stopword iteration, `none` when there was none). -/
structure CondMatch where
  startPos : Nat
  endPos : Nat
  g1 : String
  g2 : Option String
deriving DecidableEq, Repr

/-- The stopwords hardcoded in `conditional_regex` (also the keys of
`STOPWORD_WEIGHTS`). -/
def stopwordStrings : List String :=
  ["sed", "vero", "atque", "attamen", "si", "deinde"]

/-- Index (relative) of the first occurrence of `ch`. -/
def findCharRel (ch : Char) : List Char → Option Nat
  | [] => none
  | c :: cs =>
    if c = ch then some 0
    else (findCharRel ch cs).map Nat.succ

/-- Stopword captures at the region strictly between `(` and the first `)`:
skip `\s*`, then a maximal word-character run; it is captured iff it is a
stopword. -/
def stopwordCapture (inner : List Char) : String × Option String :=
  let tok := (inner.dropWhile Char.isWhitespace).takeWhile isWordChar
  if !tok.isEmpty && stopwordStrings.contains ⟨tok⟩ then (⟨tok⟩, some ⟨tok⟩)
  else ("", none)

/-- All matches of `conditional_regex` in a line (no `'\n'`), left to right
and non-overlapping, as `captures_iter` produces them.  `i` is the absolute
index of the head of the list in the line; the skip counter consumes the
remainder of a just-emitted match (keeping the recursion structural). -/
def condMatchesAux : List Char → Nat → Nat → List CondMatch
  | [], _, _ => []
  | _ :: cs, skip + 1, i => condMatchesAux cs skip (i + 1)
  | c :: cs, 0, i =>
    if c = '(' then
      match findCharRel ')' cs with
      | some r =>
        let caps := stopwordCapture (cs.take r)
        { startPos := i, endPos := i + r + 2, g1 := caps.1, g2 := caps.2 } ::
          condMatchesAux cs (r + 1) (i + 1)
      | none => []
    else condMatchesAux cs 0 (i + 1)

/-- `conditional_regex().captures_iter(line)` restricted to the captures the
source reads. -/
def conditional_captures (line : String) : List CondMatch :=
  condMatchesAux line.data 0 0

/-- `String::replace_range(range, "")` with the range given in character
offsets (byte offsets in Rust; identical on ASCII text). -/
def removeRange (l : List Char) (a b : Nat) : List Char :=
  l.take a ++ l.drop b

/-- The per-line body of `process_conditional_lines`: evaluate each matched
fragment's "condition" (capture group 2 — the trailing stopword — trimmed),
and strip the fragment from the line when it evaluates false.  Ranges come
from the original line, as in the source. -/
def processLine (ctx : SetupStringContext) (line : String) : String :=
  ⟨(conditional_captures line).foldl
    (fun cur m =>
      let condStr := trimStr (m.g2.getD "")
      if !evaluate_condition ctx condStr then removeRange cur m.startPos m.endPos
      else cur)
    line.data⟩

/-- `process_conditional_lines`: process each line, dropping lines whose
processed text trims to empty. -/
def process_conditional_lines (ctx : SetupStringContext) (content : String) :
    List String :=
  (rustLines content).foldr
    (fun line out =>
      let cur := processLine ctx line
      if (trimStr cur).isEmpty then out else cur :: out)
    []

/-! ## Section parser (`setupstring_parse_file`) -/

/-- Characters admitted in a section name by the header regex
`^\s*\[([\pL\pN_ #,:-]+)\]` (ASCII model of `\pL`/`\pN`). -/
def sectionNameChar (c : Char) : Bool :=
  c.isAlpha || c.isDigit || c = '_' || c = ' ' || c = '#' || c = ',' || c = ':'
    || c = '-'

/-- Match the section-header regex against a line, returning the trimmed
name and the remainder of the line after the `]`. -/
def sectionHeaderOf (line : String) : Option (String × String) :=
  match line.data.dropWhile Char.isWhitespace with
  | '[' :: rest =>
    let name := rest.takeWhile sectionNameChar
    if name.isEmpty then none
    else
      match rest.drop name.length with
      | ']' :: rem => some (trimStr ⟨name⟩, ⟨rem⟩)
      | _ => none
  | _ => none

/-- Phase 1 of `setupstring_parse_file`: split the lines into raw sections.
A header whose trailing guard (first `conditional_regex` match on the
remainder of the line, capture group 2) evaluates false diverts the body to
the internal marker `__skip__<name>`. -/
def parseFileStep (ctx : SetupStringContext) :
    String × FileSections → String → String × FileSections
  | (current, sections), line =>
    match sectionHeaderOf line with
    | some (name, rem) =>
      match (conditional_captures rem).head? with
      | some m =>
        let cond := trimStr (m.g2.getD "")
        if !evaluate_condition ctx cond then
          let cur := "__skip__" ++ name
          (cur, sinsert sections cur "")
        else (name, sinsert sections name "")
      | none => (name, sinsert sections name "")
    | none => (current, sappend sections current (line ++ "\n"))

/-- `setupstring_parse_file`: raw section split followed by
`process_conditional_lines` on every body (`join("\n") + "\n"`). -/
def setupstring_parse_file (ctx : SetupStringContext) (lines : List String) :
    FileSections :=
  let phase1 :=
    (lines.foldl (parseFileStep ctx) ("__preamble", [("__preamble", "")])).2
  phase1.map fun kv =>
    (kv.1, joinLines (process_conditional_lines ctx kv.2) ++ "\n")

/-! ## Inclusion resolver

The directive regex is `(?m)^\@([^\n:]+)?(?::([^\n:]+))?(?::(.*))?$`: with
the multiline flag it matches exactly the lines beginning with `@`, and on
such a line the backtracking resolves to: group 1 = the run up to the first
`:` (empty participation when the line's second character is `:`), group 2 =
the following non-empty `:`-free run when present, group 3 = the rest after
one more `:`.  Unset groups are read back as `""`. -/

/-- The groups of a directive line after the leading `@`. -/
def parseDirectiveGroups (rest : List Char) : String × String × String :=
  let f : List Char := rest.takeWhile fun c => c ≠ ':'
  match rest.drop f.length with
  | [] => (⟨f⟩, "", "")
  | _ :: r2 =>
    let s : List Char := r2.takeWhile fun c => c ≠ ':'
    if s.isEmpty then
      match r2 with
      | _ :: r3 => (⟨f⟩, "", ⟨r3⟩)
      | [] => (⟨f⟩, "", "")
    else
      match r2.drop s.length with
      | [] => (⟨f⟩, ⟨s⟩, "")
      | _ :: r3 => (⟨f⟩, ⟨s⟩, ⟨r3⟩)

/-- Parse a line (a `\n`-free segment) as an inclusion directive:
`some (file, section, substitutions)` iff the line starts with `@`. -/
def parse_inclusion_directive : List Char → Option (String × String × String)
  | [] => none
  | c :: rest => if c = '@' then some (parseDirectiveGroups rest) else none

/-- A `usize` parse (`str::parse::<usize>`) restricted to plain digit
strings. -/
def parseUsize (l : List Char) : Option Nat :=
  if !l.isEmpty && l.all Char.isDigit then
    some (l.foldl (fun n c => n * 10 + (c.toNat - 48)) 0)
  else none

/-- Replace the first occurrence of the literal pattern `p0 :: prest`
(semantics of `Regex::replace` for a metacharacter-free, non-empty pattern
and plain replacement). -/
def replaceFirstSub (p0 : Char) (prest rep : List Char) :
    List Char → List Char
  | [] => []
  | c :: t =>
    if c = p0 && listStartsWith t prest then rep ++ t.drop prest.length
    else c :: replaceFirstSub p0 prest rep t

/-- Replace every occurrence of the literal pattern `p0 :: prest`
(semantics of `Regex::replace_all` for a metacharacter-free, non-empty
pattern).  The skip counter consumes the tail of a just-replaced match
(keeping the recursion structural). -/
def replaceAllSubAux (p0 : Char) (prest rep : List Char) :
    List Char → Nat → List Char
  | [], _ => []
  | _ :: t, skip + 1 => replaceAllSubAux p0 prest rep t skip
  | c :: t, 0 =>
    if c = p0 && listStartsWith t prest then
      rep ++ replaceAllSubAux p0 prest rep t prest.length
    else c :: replaceAllSubAux p0 prest rep t 0

/-- `Regex::replace_all` for the literal pattern `p0 :: prest`. -/
def replaceAllSub (p0 : Char) (prest rep : List Char) (l : List Char) :
    List Char :=
  replaceAllSubAux p0 prest rep l 0

/-- One `s/pattern/replacement/flags` token of
`do_inclusion_substitutions` (the part after the leading `s/`): split on the
first `/` into the pattern, then on the last `/` of the remainder into
replacement and flags, and substitute (all occurrences with flag `g`, else
the first). -/
def applySubstToken (text : String) (reSplit : List Char) : String :=
  match findCharRel '/' reSplit with
  | none => text
  | some idx =>
    let pattern := reSplit.take idx
    let remainder := reSplit.drop (idx + 1)
    let pr :=
      match (findCharRel '/' remainder.reverse).map
          (fun j => remainder.length - 1 - j) with
      | some idx2 => (remainder.take idx2, remainder.drop (idx2 + 1))
      | none => (remainder, ([] : List Char))
    match pattern with
    | [] => text
    | p0 :: prest =>
      if pr.2.contains 'g' then ⟨replaceAllSub p0 prest pr.1 text.data⟩
      else ⟨replaceFirstSub p0 prest pr.1 text.data⟩

/-- `do_inclusion_substitutions`: apply each `:`-separated token, either an
`s/…/…/flags` replacement or a 1-based inclusive `start-end` line slice
(`&lines[start.saturating_sub(1) .. end.min(lines.len())]`, then
`join("\n") + "\n"`). -/
def do_inclusion_substitutions (text subs : String) : String :=
  (splitOnChar ':' subs.data).foldl
    (fun text t =>
      if listStartsWith t ['s', '/'] then applySubstToken text (t.drop 2)
      else
        match findCharRel '-' t with
        | some dashIdx =>
          match parseUsize (t.take dashIdx), parseUsize (t.drop (dashIdx + 1)) with
          | some snum, some enum0 =>
            let lines := rustLines text
            let snippet :=
              (lines.take (min enum0 lines.length)).drop (snum - 1)
            joinLines snippet ++ "\n"
          | _, _ => text
        | none => text)
    text

/-- The type of a `setupstring` continuation: what a nested
`self.setupstring(lang, fname, resolve)` call performs on the cache. -/
def SS : Type :=
  Cache → String → String → ResolveDirectives → Option FileSections × Cache

/-- `get_loadtime_inclusion`: fetch the text for `@ftitle:section:subs`.  An
empty `ftitle` is a self-reference into `sections`; otherwise the target
file is loaded at `WholeFile` depth.  Misses produce inline diagnostic
placeholders. -/
def get_loadtime_inclusion (ss : SS) (cache : Cache) (sections : FileSections)
    (lang ftitle sect subs : String) : String × Cache :=
  if ftitle = "" then
    match slookup sections sect with
    | some t => (do_inclusion_substitutions t subs, cache)
    | none => ("MISSING local section: " ++ sect, cache)
  else
    match (ss cache lang (ftitle ++ ".txt") ResolveDirectives.WholeFile).1 with
    | some ext =>
      match slookup ext sect with
      | some t => (do_inclusion_substitutions t subs,
          (ss cache lang (ftitle ++ ".txt") ResolveDirectives.WholeFile).2)
      | none => (ftitle ++ ":" ++ sect ++ " is missing!",
          (ss cache lang (ftitle ++ ".txt") ResolveDirectives.WholeFile).2)
    | none => (ftitle ++ ":" ++ sect ++ " file not found",
        (ss cache lang (ftitle ++ ".txt") ResolveDirectives.WholeFile).2)

/-- One line of `expand_inclusions_in_text`: a directive line is replaced by
its inclusion text (section defaulting to the current one), any other line
is kept verbatim. -/
def expandSegment (ss : SS) (cache : Cache) (sections : FileSections)
    (lang current_section : String) (seg : List Char) : String × Cache :=
  match parse_inclusion_directive seg with
  | some (ftitle, sec, subs) =>
    let section_name := if sec = "" then current_section else sec
    get_loadtime_inclusion ss cache sections lang ftitle section_name subs
  | none => (⟨seg⟩, cache)

/-- Process the `\n`-separated segments of a text in order, threading the
cache. -/
def expandSegments (ss : SS) (sections : FileSections)
    (lang current_section : String) (cache : Cache) :
    List (List Char) → List String × Cache
  | [] => ([], cache)
  | seg :: rest =>
    match expandSegment ss cache sections lang current_section seg with
    | (piece, c1) =>
      match expandSegments ss sections lang current_section c1 rest with
      | (pieces, c2) => (piece :: pieces, c2)

/-- `expand_inclusions_in_text`: splice inclusion texts in place of the
directive lines (`(?m)^@…$` matches whole lines only). -/
def expand_inclusions_in_text (ss : SS) (cache : Cache) (text : String)
    (sections : FileSections) (lang current_section : String) :
    String × Cache :=
  match expandSegments ss sections lang current_section cache
      (splitOnChar '\n' text.data) with
  | (pieces, c1) => (joinLines pieces, c1)

/-- The bounded rewrite loop of `expand_section_inclusions`: up to 10
passes, stopping at a fixpoint (cache effects of the deciding pass are
kept, as in the source). -/
def expandPasses (ss : SS) (sections : FileSections) (lang key : String) :
    Nat → String → Cache → String × Cache
  | 0, body, cache => (body, cache)
  | n + 1, body, cache =>
    match expand_inclusions_in_text ss cache body sections lang key with
    | (newBody, c1) =>
      if newBody = body then (body, c1)
      else expandPasses ss sections lang key n newBody c1

/-- `expand_section_inclusions`: expand one section's body to a (bounded)
fixpoint against a snapshot of the section map, then store it back. -/
def expand_section_inclusions (ss : SS) (cache : Cache)
    (sections : FileSections) (key lang : String) : FileSections × Cache :=
  match slookup sections key with
  | none => (sections, cache)
  | some body =>
    match expandPasses ss sections lang key 10 body cache with
    | (b, c1) => (sinsert sections key b, c1)

/-- `resolve_inclusions_in_sections`: expand `Rule` first when present, then
every other section in map order. -/
def resolve_inclusions_in_sections (ss : SS) (cache : Cache)
    (sections : FileSections) (lang : String) : FileSections × Cache :=
  let keys := sections.map Prod.fst
  let start :=
    if keys.contains "Rule" then
      expand_section_inclusions ss cache sections "Rule" lang
    else (sections, cache)
  keys.foldl
    (fun st k =>
      if k = "Rule" then st
      else expand_section_inclusions ss st.2 st.1 k lang)
    start

/-- `resolve_inclusions_in_preamble`: expand the preamble against an empty
section map. -/
def resolve_inclusions_in_preamble (ss : SS) (cache : Cache)
    (preamble lang : String) : String × Cache :=
  expand_inclusions_in_text ss cache preamble [] lang "__preamble"

/-- `setupstring_fallback_layer`: for a non-Latin language, resolve the same
file under `Latin` at depth `None` as the base layer; a missing fallback
file degrades to an empty layer. -/
def setupstring_fallback_layer (ss : SS) (cache : Cache)
    (lang fname : String) : FileSections × Cache :=
  if eqIgnoreAsciiCase lang "Latin" then ([], cache)
  else
    match ss cache "Latin" fname ResolveDirectives.None with
    | (some secs, c1) => (secs, c1)
    | (none, c1) => ([], c1)

/-- `merge_section_maps`: overlay the newly parsed sections over the
fallback base. -/
def merge_section_maps (base newsec : FileSections) : FileSections :=
  newsec.foldl (fun acc kv => sinsert acc kv.1 kv.2) base

/-- The `__preamble`-expansion step shared by the cache-hit `WholeFile` path
and the miss path (`if let Some(pre) = sections.get_mut("__preamble")`
followed by `resolve_inclusions_in_preamble`). -/
def preamble_step (ss : SS) (cache : Cache) (secs : FileSections)
    (lang : String) : FileSections × Cache :=
  match slookup secs "__preamble" with
  | some pre =>
    match resolve_inclusions_in_preamble ss cache pre lang with
    | (p, c1) => (sinsert secs "__preamble" p, c1)
  | none => (secs, cache)

/-- The cache-hit path of `setupstring`: the cached entry is cloned and,
depending on the requested depth, completed by section or preamble
expansion. -/
def setupstring_hit (ss : SS) (cache : Cache) (secs : FileSections)
    (lang : String) (resolve : ResolveDirectives) :
    Option FileSections × Cache :=
  if resolve = ResolveDirectives.All then
    (some (resolve_inclusions_in_sections ss cache secs lang).1,
      (resolve_inclusions_in_sections ss cache secs lang).2)
  else if resolve = ResolveDirectives.WholeFile then
    (some (preamble_step ss cache secs lang).1,
      (preamble_step ss cache secs lang).2)
  else (some secs, cache)

/-- Miss path, stage 1: parsed sections merged over the fallback layer. -/
def missMerged (ctx : SetupStringContext) (ss : SS) (cache : Cache)
    (lang fname : String) (file_contents : List String) : FileSections :=
  merge_section_maps (setupstring_fallback_layer ss cache lang fname).1
    (setupstring_parse_file ctx file_contents)

/-- Miss path, stage 2: `__preamble` expansion unless depth is `None`. -/
def missStep2 (ctx : SetupStringContext) (ss : SS) (cache : Cache)
    (lang fname : String) (resolve : ResolveDirectives)
    (file_contents : List String) : FileSections × Cache :=
  if resolve ≠ ResolveDirectives.None then
    preamble_step ss (setupstring_fallback_layer ss cache lang fname).2
      (missMerged ctx ss cache lang fname file_contents) lang
  else (missMerged ctx ss cache lang fname file_contents,
    (setupstring_fallback_layer ss cache lang fname).2)

/-- Miss path, stage 3: per-section expansion at depth `All`. -/
def missStep3 (ctx : SetupStringContext) (ss : SS) (cache : Cache)
    (lang fname : String) (resolve : ResolveDirectives)
    (file_contents : List String) : FileSections × Cache :=
  if resolve = ResolveDirectives.All then
    resolve_inclusions_in_sections ss
      (missStep2 ctx ss cache lang fname resolve file_contents).2
      (missStep2 ctx ss cache lang fname resolve file_contents).1 lang
  else missStep2 ctx ss cache lang fname resolve file_contents

/-- The cache-miss path of `setupstring` after a successful read: fallback
layer, parse, merge, staged expansion, and cache insertion. -/
def setupstring_read_miss (ctx : SetupStringContext) (ss : SS)
    (cache : Cache) (lang fname : String) (resolve : ResolveDirectives)
    (file_contents : List String) : Option FileSections × Cache :=
  (some (missStep3 ctx ss cache lang fname resolve file_contents).1,
    cacheInsert (missStep3 ctx ss cache lang fname resolve file_contents).2
      (ctx.version ++ "::" ++ lang) fname
      (missStep3 ctx ss cache lang fname resolve file_contents).1)

/-- `setupstring`, with fuel modelling the Rust call stack.  On a cache hit
the entry is cloned and (for deeper depths) completed by expansion; on a
miss the file is read, layered over the fallback, expanded according to
`resolve` and inserted into the cache. -/
def setupstring (ctx : SetupStringContext) :
    Nat → Cache → String → String → ResolveDirectives →
      Option FileSections × Cache
  | 0, cache, _, _, _ => (none, cache)
  | n + 1, cache, lang, fname, resolve =>
    match cacheLookup cache (ctx.version ++ "::" ++ lang) fname with
    | some secs => setupstring_hit (setupstring ctx n) cache secs lang resolve
    | none =>
      match do_read ctx (make_full_path ctx lang fname) with
      | none => (none, cache)
      | some file_contents =>
        setupstring_read_miss ctx (setupstring ctx n) cache lang fname
          resolve file_contents

/-! ## Derived predicates used in the statements -/

/-- Does the string end in a newline character? -/
def ends_with_newline (s : String) : Bool :=
  match s.data.getLast? with
  | some c => c = '\n'
  | none => false

/-- A text is directive-free when none of its lines starts with `@` (no line
the inclusion regex `(?m)^@…$` would match). -/
def directive_free_text (s : String) : Bool :=
  (splitOnChar '\n' s.data).all fun seg => !listStartsWith seg ['@']

/-- A section map is directive-free when every body is. -/
def directive_free (secs : FileSections) : Bool :=
  secs.all fun kv => directive_free_text kv.2

/-! ## Concrete scenario inputs -/

/-- A context with version `Tridentine - 1570` (predicate `monastica`
false, `tridentina` true) and no readable files. -/
def ctxTrident : SetupStringContext :=
  { version := "Tridentine - 1570", datafolder := "d", missa_number := "",
    dayofweek := 0, commune := "", votive := "", hora := "Laudes",
    dayname := ("", ""), fs := [] }

/-- Scenario A (claim C1): a section, then a false-guarded duplicate. -/
def scenarioA_lines : List String :=
  ["[Rank]", "Duplex", "[Rank](xyz-never-true)", "Alternate"]

/-- Scenario C (claim C4), bare fragment variant. -/
def scenarioC_plain : String :=
  "(sed monastica) keep-me\ndeleted-if-chunk"

/-- Scenario C with an explicit line-scope marker
(`hic versus omittitur`). -/
def scenarioC_lineScope : String :=
  "(sed monastica hic versus omittitur) keep-me\ndeleted-if-chunk"

/-- Scenario C with an explicit chunk-scope marker
(`hi versus omittuntur`). -/
def scenarioC_chunkScope : String :=
  "(sed monastica hi versus omittuntur) keep-me\ndeleted-if-chunk"

/-- A context whose file system holds the concrete files for claims C2, C3,
C5 and C8: scenario B in both mid-line (`A.txt`) and line-anchored
(`A2.txt`) form, a self-referential inclusion (`R.txt`), a file whose
directives point at a missing file and at an existing sibling (`F.txt`,
`G.txt`), and a Latin-only file (`f.txt`). -/
def ctxFiles : SetupStringContext :=
  { version := "Rubrics 1960", datafolder := "d", missa_number := "",
    dayofweek := 0, commune := "", votive := "", hora := "Laudes",
    dayname := ("", ""),
    fs := [("d/Latin/A.txt", ["[Foo]", "Hello @B:Bar:"]),
           ("d/Latin/B.txt", ["[Bar]", "World"]),
           ("d/Latin/A2.txt", ["[Foo]", "@B:Bar:"]),
           ("d/Latin/R.txt", ["[A]", "@:A:"]),
           ("d/Latin/F.txt", ["[A]", "@Missing:Sec:", "[B]", "@G:Bar:"]),
           ("d/Latin/G.txt", ["[Bar]", "World"]),
           ("d/Latin/f.txt", ["[Sec]", "text"])] }

/-- A pre-populated cache for claims C5 and C9: a directive-free entry and
an entry whose body still holds a directive. -/
def cachePre : Cache :=
  [(("Rubrics 1960::Latin", "X.txt"),
      [("__preamble", "\n"), ("S", "hello\n")]),
   (("Rubrics 1960::Latin", "Y.txt"),
      [("__preamble", "\n"), ("T", "@G:Bar:\n")])]

/-! ## Auxiliary lemmas -/

theorem toNat_ofNat_small (n : Nat) (h : n < 55296) :
    (Char.ofNat n).toNat = n := by
  unfold Char.ofNat
  rw [dif_pos (Or.inl h)]
  simp [Char.ofNatAux, Char.toNat, UInt32.toNat, UInt32.ofNatCore]

theorem asciiLowerChar_idem (c : Char) :
    asciiLowerChar (asciiLowerChar c) = asciiLowerChar c := by
  unfold asciiLowerChar
  by_cases h : 65 ≤ c.toNat ∧ c.toNat ≤ 90
  · rw [if_pos h]
    have h32 : (Char.ofNat (c.toNat + 32)).toNat = c.toNat + 32 :=
      toNat_ofNat_small _ (by omega)
    rw [if_neg (by rw [h32]; omega)]
  · rw [if_neg h, if_neg h]

theorem asciiLower_idem (s : String) :
    asciiLower (asciiLower s) = asciiLower s := by
  obtain ⟨l⟩ := s
  simp [asciiLower, List.map_map, Function.comp_def, asciiLowerChar_idem]

theorem ends_with_newline_append (s : String) :
    ends_with_newline (s ++ "\n") = true := by
  obtain ⟨l⟩ := s
  show ends_with_newline ⟨l ++ ['\n']⟩ = true
  simp [ends_with_newline, List.getLast?_concat]

/-! ## Claim C1 -/

/-- **C1**: the claim states that looking up a section name returns the last
unguarded-or-true-guarded occurrence and that a false-guarded body is never
exposed under the real name; in particular parsing
`[Rank]\nDuplex\n[Rank](xyz-never-true)\nAlternate\n` and resolving `Rank`
should return `Duplex`.  The code violates this: `setupstring_parse_file`
reads capture group 2 of `conditional_regex` — the inner *stopword* group,
which does not participate for the guard `(xyz-never-true)` — as the
condition, so the guard is read as the empty (vacuously true) condition even
though `evaluate_condition` on the actual guard text is false.  The
duplicate header is therefore accepted, resets the `Rank` entry, and the
false-guarded body `Alternate` is exposed under the real name. -/
theorem C1_false_guard_exposed :
    evaluate_condition ctxTrident "xyz-never-true" = false ∧
    slookup (setupstring_parse_file ctxTrident scenarioA_lines) "Rank" =
      some "Alternate\n" ∧
    slookup (setupstring_parse_file ctxTrident scenarioA_lines) "Rank" ≠
      some "Duplex\n" := by decide

/-! ## Claim C4 -/

/-- **C4 counterexample**: the claim states that a false inline conditional
triggers scoped backward deletion — line scope deleting the immediately
preceding line, chunk scope the preceding non-blank block — and that the
two scopes produce distinct results on scenario C.  In the code,
`process_conditional_lines` performs no backward deletion at all: both scope
variants yield the identical output, and the line `deleted-if-chunk`
survives in both. -/
theorem C4_counterexample_no_scoped_deletion :
    process_conditional_lines ctxTrident scenarioC_lineScope =
      process_conditional_lines ctxTrident scenarioC_chunkScope ∧
    (process_conditional_lines ctxTrident scenarioC_lineScope).contains
      "deleted-if-chunk" = true := by decide

/-- **C4 amended**: on a false condition the processor only strips the
parenthesized fragment from its own line (dropping the line if it trims to
empty); no preceding line or chunk is deleted, so the line-scope and
chunk-scope marker variants of scenario C both deterministically produce
`[" keep-me", "deleted-if-chunk"]`, as does the bare fragment. -/
theorem C4_amended_scope_insensitive :
    process_conditional_lines ctxTrident scenarioC_plain =
      [" keep-me", "deleted-if-chunk"] ∧
    process_conditional_lines ctxTrident scenarioC_lineScope =
      [" keep-me", "deleted-if-chunk"] ∧
    process_conditional_lines ctxTrident scenarioC_chunkScope =
      [" keep-me", "deleted-if-chunk"] := by decide

/-! ## Claim C2 -/

/-- **C2 counterexample**: the claim states that the `@B:Bar:` directive is
expanded wherever it occurs in the body, so that scenario B yields
`Hello World\n`.  The directive regex is anchored (`(?m)^@…$`): a mid-line
directive is left verbatim, and section `Foo` resolves to
`Hello @B:Bar:\n`. -/
theorem C2_counterexample_midline_not_expanded :
    slookup ((setupstring ctxFiles 5 [] "Latin" "A.txt"
        ResolveDirectives.All).1.getD []) "Foo" = some "Hello @B:Bar:\n" ∧
    slookup ((setupstring ctxFiles 5 [] "Latin" "A.txt"
        ResolveDirectives.All).1.getD []) "Foo" ≠ some "Hello World\n" := by
  decide

/-- **C2 amended**: an `@file:section:substitutions` directive is expanded
only when it occupies an entire line (the `@` at line start); elsewhere it
is literal text.  Scenario B therefore yields `Hello @B:Bar:\n`, while the
line-anchored variant `[Foo]\n@B:Bar:\n` resolves to the included section
text spliced in place of the directive line (`World\n\n`, the included
body's newline plus the directive line's own). -/
theorem C2_amended_line_anchored :
    slookup ((setupstring ctxFiles 5 [] "Latin" "A2.txt"
        ResolveDirectives.All).1.getD []) "Foo" = some "World\n\n" ∧
    slookup ((setupstring ctxFiles 5 [] "Latin" "A.txt"
        ResolveDirectives.All).1.getD []) "Foo" = some "Hello @B:Bar:\n" := by
  decide

/-! ## Claim C10 -/

/-- **C10**: every value stored by the section parser — the `__preamble`
entry and `__skip__` markers included — ends with a newline, and an empty
section body is stored as the one-character string `"\n"`. -/
theorem C10_values_newline_terminated (ctx : SetupStringContext)
    (lines : List String) :
    ((setupstring_parse_file ctx lines).all fun kv =>
        ends_with_newline kv.2) = true ∧
    slookup (setupstring_parse_file ctx ["[Empty]"]) "Empty" = some "\n" := by
  constructor
  · simp only [setupstring_parse_file, List.all_map]
    rw [List.all_eq_true]
    intro kv _
    exact ends_with_newline_append _
  · rfl

/-! ## Claim C7 -/

/-- **C7**: predicate matching is case-insensitive in the predicate name
for every entry of the predicate table (the name is ASCII-lowercased before
the table dispatch), and the fallback for unrecognized names matches the
lowercased name against the lowercased subject value, hence is additionally
case-insensitive in the subject value. -/
theorem C7_predicate_case_insensitive (p v : String) :
    predicate_matches p v = predicate_matches (asciiLower p) v ∧
    (asciiLower p ∉ predicate_table_names →
      predicate_matches p v = predicate_matches p (asciiLower v)) := by
  constructor
  · simp only [predicate_matches, asciiLower_idem]
  · intro h
    simp only [predicate_table_names, List.mem_cons, List.not_mem_nil,
      or_false, not_or] at h
    obtain ⟨h1, h2, h3, h4, h5, h6, h7, h8, h9, h10, h11, h12, h13⟩ := h
    simp only [predicate_matches, if_neg h1, if_neg h2,
      if_neg (not_or.mpr ⟨h3, h4⟩), if_neg h5, if_neg h6, if_neg h7,
      if_neg h8, if_neg h9, if_neg h10, if_neg h11, if_neg h12, if_neg h13,
      asciiLower_idem]

/-- Witness for C7 at concrete inputs: a table entry under a differently
cased name, and an unrecognized predicate against a differently cased
subject value. -/
theorem C7_predicate_case_insensitive_witness :
    (predicate_matches "TRIDENTINA" "Tridentine - 1570" =
      predicate_matches (asciiLower "TRIDENTINA") "Tridentine - 1570") ∧
    (predicate_matches "nativitate" "IN NATIVITATE" =
      predicate_matches "nativitate" (asciiLower "IN NATIVITATE")) :=
  ⟨(C7_predicate_case_insensitive "TRIDENTINA" "Tridentine - 1570").1,
   (C7_predicate_case_insensitive "nativitate" "IN NATIVITATE").2
     (by decide)⟩

/-! ## Claim C6 -/

/-- **C6**: in an AND-chain `a et nisi b et c`, `nisi` flips the polarity of
its own term and of every following term: when tokenization yields
`[a, et, nisi, b, et, c]` and the terms `a` and `b` both match (while `c`
does not), the whole chain — and hence the whole condition when the chain
is its only `aut`-alternative — evaluates false, because the matching `b`
is evaluated under the latched negation. -/
theorem C6_nisi_negates_rest_of_chain (ctx : SetupStringContext)
    (cond sub a b c : String)
    (h0 : ¬ trimStr cond = "")
    (h1 : split_on_word (trimStr cond) "aut" = [sub])
    (h2 : split_preserving_operator sub ["et", "nisi"] =
      [a, "et", "nisi", b, "et", c])
    (ha : ¬ asciiLower (trimStr a) = "et" ∧ ¬ asciiLower (trimStr a) = "nisi")
    (hb : ¬ asciiLower (trimStr b) = "et" ∧ ¬ asciiLower (trimStr b) = "nisi")
    (hma : term_matches ctx a = true)
    (hmb : term_matches ctx b = true)
    (_hmc : term_matches ctx c = false) :
    evaluate_condition ctx cond = false := by
  unfold evaluate_condition
  rw [if_neg h0, h1]
  simp only [List.any_cons, List.any_nil, Bool.or_false]
  unfold evaluate_sub_condition
  rw [h2]
  simp +decide [evaluate_condition_tokens, ha.1, ha.2, hb.1, hb.2, hma, hmb]

/-- Witness for C6: under version `Tridentine - 1570`, the terms
`rubrica tridentina` (twice) match and `rubrica monastica` does not, and
the chain `rubrica tridentina et nisi rubrica tridentina et rubrica
monastica` evaluates false. -/
theorem C6_nisi_negates_rest_of_chain_witness :
    term_matches ctxTrident "rubrica tridentina" = true ∧
    term_matches ctxTrident "rubrica monastica" = false ∧
    evaluate_condition ctxTrident
      "rubrica tridentina et nisi rubrica tridentina et rubrica monastica" =
      false :=
  ⟨by decide, by decide,
   C6_nisi_negates_rest_of_chain ctxTrident
     "rubrica tridentina et nisi rubrica tridentina et rubrica monastica"
     "rubrica tridentina et nisi rubrica tridentina et rubrica monastica"
     "rubrica tridentina" "rubrica tridentina" "rubrica monastica"
     (by decide) (by decide) (by decide) (by decide) (by decide) (by decide)
     (by decide) (by decide)⟩

/-! ## Claim C3 -/

/-- **C3 counterexample**: the claim states that when the requested
language's file is missing but the fallback language's file exists, the
fallback layer alone is returned rather than an error or `None`.  In the
code the read of the requested file happens first and a miss returns `None`
immediately, before the fallback layer is ever computed: here
`d/Latin/f.txt` exists (and resolves), yet requesting `Deutsch` yields
`none`. -/
theorem C3_counterexample_missing_file_returns_none :
    (setupstring ctxFiles 5 [] "Deutsch" "f.txt" ResolveDirectives.All).1 =
      none ∧
    (setupstring ctxFiles 5 [] "Latin" "f.txt" ResolveDirectives.None).1 =
      some [("__preamble", "\n"), ("Sec", "text\n")] := by decide

/-- **C3 amended**: when the requested language's file is missing (cache
miss and failed read), `setupstring` returns `None` with the cache
untouched — the fallback layer is only computed and merged when the
requested file itself reads successfully. -/
theorem C3_amended_missing_file_none (ctx : SetupStringContext) (n : Nat)
    (cache : Cache) (lang fname : String) (resolve : ResolveDirectives)
    (hmiss : cacheLookup cache (ctx.version ++ "::" ++ lang) fname = none)
    (hread : do_read ctx (make_full_path ctx lang fname) = none) :
    setupstring ctx (n + 1) cache lang fname resolve = (none, cache) := by
  simp only [setupstring]
  rw [hmiss, hread]

/-- Witness for C3 at the concrete scenario: requesting `Deutsch` with an
empty cache and only a Latin file present returns `none`. -/
theorem C3_amended_missing_file_none_witness :
    do_read ctxFiles (make_full_path ctxFiles "Deutsch" "f.txt") = none ∧
    setupstring ctxFiles 5 [] "Deutsch" "f.txt" ResolveDirectives.All =
      (none, []) :=
  ⟨by decide,
   C3_amended_missing_file_none ctxFiles 4 [] "Deutsch" "f.txt"
     ResolveDirectives.All (by decide) (by decide)⟩

/-! ## Claim C8 -/

/-- **C8**: an inclusion whose target is missing resolves to an inline
diagnostic placeholder naming what is missing — `<file>:<section> file not
found` when the target file cannot be loaded, `<file>:<section> is
missing!` when the file loads but lacks the section, and
`MISSING local section: <section>` for a failed self-reference.
`get_loadtime_inclusion` always returns a string (there is no failure
path), so a miss never aborts the resolution of the enclosing file. -/
theorem C8_missing_target_placeholder (ctx : SetupStringContext) (n : Nat)
    (cache : Cache) (secs : FileSections) (lang ftitle sect subs : String) :
    (ftitle ≠ "" →
      (setupstring ctx n cache lang (ftitle ++ ".txt")
          ResolveDirectives.WholeFile).1 = none →
      (get_loadtime_inclusion (setupstring ctx n) cache secs lang ftitle
          sect subs).1 = ftitle ++ ":" ++ sect ++ " file not found") ∧
    (∀ ext c1, ftitle ≠ "" →
      setupstring ctx n cache lang (ftitle ++ ".txt")
          ResolveDirectives.WholeFile = (some ext, c1) →
      slookup ext sect = none →
      (get_loadtime_inclusion (setupstring ctx n) cache secs lang ftitle
          sect subs).1 = ftitle ++ ":" ++ sect ++ " is missing!") ∧
    (ftitle = "" → slookup secs sect = none →
      (get_loadtime_inclusion (setupstring ctx n) cache secs lang ftitle
          sect subs).1 = "MISSING local section: " ++ sect) := by
  refine ⟨fun hne hnone => ?_, fun ext c1 hne hsome hsect => ?_,
    fun he hsect => ?_⟩
  · unfold get_loadtime_inclusion
    rw [if_neg hne, hnone]
  · unfold get_loadtime_inclusion
    rw [if_neg hne, hsome]
    simp [hsect]
  · unfold get_loadtime_inclusion
    rw [if_pos he]
    simp [hsect]

/-- Witness for C8: against `ctxFiles`, the missing file `Missing.txt`
produces the `file not found` placeholder, the missing section `Nope` of
the existing `G.txt` produces the `is missing!` placeholder, and resolving
`F.txt` — whose section `A` holds a directive to the missing file — still
resolves the sibling section `B` (no abort), with the placeholder visible
inline. -/
theorem C8_missing_target_placeholder_witness :
    (get_loadtime_inclusion (setupstring ctxFiles 3) [] [] "Latin" "Missing"
        "Sec" "").1 = "Missing:Sec file not found" ∧
    (get_loadtime_inclusion (setupstring ctxFiles 3) [] [] "Latin" "G"
        "Nope" "").1 = "G:Nope is missing!" ∧
    (setupstring ctxFiles 5 [] "Latin" "F.txt" ResolveDirectives.All).1 =
      some [("__preamble", "\n"), ("A", "Missing:Sec file not found\n"),
        ("B", "World\n\n")] :=
  ⟨(C8_missing_target_placeholder ctxFiles 3 [] [] "Latin" "Missing" "Sec"
      "").1 (by decide) (by decide),
   (C8_missing_target_placeholder ctxFiles 3 [] [] "Latin" "G" "Nope"
      "").2.1 ((setupstring ctxFiles 3 [] "Latin" "G.txt"
        ResolveDirectives.WholeFile).1.getD [])
     (setupstring ctxFiles 3 [] "Latin" "G.txt"
        ResolveDirectives.WholeFile).2 (by decide) (by decide) (by decide),
   by decide⟩

/-! ## Claim C5 -/

theorem splitOnCharAux_ne_nil (sep : Char) :
    ∀ (cs acc : List Char), splitOnCharAux sep cs acc ≠ []
  | [], _ => by simp [splitOnCharAux]
  | c :: cs, acc => by
    unfold splitOnCharAux
    split
    · simp
    · exact splitOnCharAux_ne_nil sep cs _

theorem joinWith_cons_ne (sep : Char) (x : List Char)
    (ys : List (List Char)) (h : ys ≠ []) :
    joinWith sep (x :: ys) = x ++ sep :: joinWith sep ys := by
  cases ys with
  | nil => exact absurd rfl h
  | cons y ys => rfl

theorem joinWith_splitOnCharAux (sep : Char) :
    ∀ (cs acc : List Char),
      joinWith sep (splitOnCharAux sep cs acc) = acc.reverse ++ cs
  | [], acc => by simp [splitOnCharAux, joinWith]
  | c :: cs, acc => by
    unfold splitOnCharAux
    by_cases h : c = sep
    · rw [if_pos h,
        joinWith_cons_ne sep _ _ (splitOnCharAux_ne_nil sep cs []),
        joinWith_splitOnCharAux sep cs []]
      simp [h]
    · rw [if_neg h, joinWith_splitOnCharAux sep cs (c :: acc)]
      simp

/-- Splitting on a separator and joining back is the identity. -/
theorem joinWith_splitOnChar (sep : Char) (l : List Char) :
    joinWith sep (splitOnChar sep l) = l :=
  joinWith_splitOnCharAux sep l []

theorem mk_append (a b : List Char) :
    (⟨a⟩ : String) ++ (⟨b⟩ : String) = ⟨a ++ b⟩ := rfl

theorem joinLines_map_mk :
    ∀ (l : List (List Char)),
      joinLines (l.map fun x => (⟨x⟩ : String)) = ⟨joinWith '\n' l⟩
  | [] => rfl
  | [_] => rfl
  | x :: y :: xs => by
    have ih := joinLines_map_mk (y :: xs)
    simp only [List.map_cons] at ih ⊢
    rw [joinLines, ih]
    rw [show ("\n" : String) = ⟨['\n']⟩ from rfl, mk_append, mk_append]
    rw [joinWith_cons_ne '\n' x (y :: xs) (by simp)]
    simp

theorem parse_inclusion_directive_eq_none (seg : List Char)
    (h : listStartsWith seg ['@'] = false) :
    parse_inclusion_directive seg = none := by
  cases seg with
  | nil => rfl
  | cons c t =>
    simp [listStartsWith] at h
    simp [parse_inclusion_directive, h]

theorem expandSegments_directive_free (ss : SS) (sections : FileSections)
    (lang cur : String) (cache : Cache) :
    ∀ (segs : List (List Char)),
      (segs.all fun seg => !listStartsWith seg ['@']) = true →
      expandSegments ss sections lang cur cache segs =
        (segs.map fun seg => (⟨seg⟩ : String), cache)
  | [], _ => rfl
  | seg :: rest, h => by
    simp only [List.all_cons, Bool.and_eq_true, Bool.not_eq_true'] at h
    have hseg : expandSegment ss cache sections lang cur seg =
        ((⟨seg⟩ : String), cache) := by
      unfold expandSegment
      rw [parse_inclusion_directive_eq_none seg h.1]
    unfold expandSegments
    simp only [hseg]
    rw [expandSegments_directive_free ss sections lang cur cache rest
      (by simp [h.2])]
    simp

/-- A directive-free text passes through `expand_inclusions_in_text`
unchanged (and without cache effects). -/
theorem expand_directive_free (ss : SS) (cache : Cache) (t : String)
    (sections : FileSections) (lang cur : String)
    (h : directive_free_text t = true) :
    expand_inclusions_in_text ss cache t sections lang cur = (t, cache) := by
  unfold expand_inclusions_in_text
  unfold directive_free_text at h
  rw [expandSegments_directive_free ss sections lang cur cache _
    (by simpa using h)]
  simp only [joinLines_map_mk, joinWith_splitOnChar]

theorem expandPasses_fix (ss : SS) (sections : FileSections)
    (lang key : String) (n : Nat) (body : String) (cache : Cache)
    (h : expand_inclusions_in_text ss cache body sections lang key =
      (body, cache)) :
    expandPasses ss sections lang key (n + 1) body cache = (body, cache) := by
  unfold expandPasses
  rw [h]
  simp

theorem slookup_all_prop (p : String → Bool) :
    ∀ (secs : FileSections) (k v : String),
      (secs.all fun kv => p kv.2) = true → slookup secs k = some v →
      p v = true
  | [], _, _, _, hl => by simp [slookup] at hl
  | (k0, v0) :: rest, k, v, ha, hl => by
    simp only [List.all_cons, Bool.and_eq_true] at ha
    unfold slookup at hl
    by_cases h : k0 = k
    · rw [if_pos h] at hl
      cases hl
      exact ha.1
    · rw [if_neg h] at hl
      exact slookup_all_prop p rest k v ha.2 hl

theorem sinsert_self :
    ∀ (secs : FileSections) (k v : String),
      slookup secs k = some v → sinsert secs k v = secs
  | [], k, v, h => by simp [slookup] at h
  | (k0, v0) :: rest, k, v, h => by
    unfold slookup at h
    unfold sinsert
    by_cases hk : k0 = k
    · rw [if_pos hk] at h
      cases h
      rw [if_pos hk]
    · rw [if_neg hk] at h
      rw [if_neg hk, sinsert_self rest k v h]

/-- A directive-free section map passes through
`expand_section_inclusions` unchanged. -/
theorem expand_section_directive_free (ss : SS) (cache : Cache)
    (secs : FileSections) (key lang : String)
    (h : directive_free secs = true) :
    expand_section_inclusions ss cache secs key lang = (secs, cache) := by
  unfold expand_section_inclusions
  cases hl : slookup secs key with
  | none => rfl
  | some body =>
    have hb : directive_free_text body = true :=
      slookup_all_prop directive_free_text secs key body h hl
    have hfix : expandPasses ss secs lang key 10 body cache =
        (body, cache) :=
      expandPasses_fix ss secs lang key 9 body cache
        (expand_directive_free ss cache body secs lang key hb)
    show (match expandPasses ss secs lang key 10 body cache with
      | (b, c1) => (sinsert secs key b, c1)) = (secs, cache)
    rw [hfix]
    show (sinsert secs key body, cache) = (secs, cache)
    rw [sinsert_self secs key body hl]

/-- A directive-free section map passes through
`resolve_inclusions_in_sections` unchanged. -/
theorem resolve_sections_directive_free (ss : SS) (cache : Cache)
    (secs : FileSections) (lang : String) (h : directive_free secs = true) :
    resolve_inclusions_in_sections ss cache secs lang = (secs, cache) := by
  have hstart :
      (if (secs.map Prod.fst).contains "Rule" then
        expand_section_inclusions ss cache secs "Rule" lang
      else (secs, cache)) = (secs, cache) := by
    split
    · exact expand_section_directive_free ss cache secs "Rule" lang h
    · rfl
  simp only [resolve_inclusions_in_sections]
  rw [hstart]
  have hfold : ∀ keys : List String,
      keys.foldl
        (fun st k =>
          if k = "Rule" then st
          else expand_section_inclusions ss st.2 st.1 k lang)
        (secs, cache) = (secs, cache) := by
    intro keys
    induction keys with
    | nil => rfl
    | cons k ks ih =>
      simp only [List.foldl_cons]
      by_cases hk : k = "Rule"
      · rw [if_pos hk]
        exact ih
      · rw [if_neg hk]
        have hx : expand_section_inclusions ss (secs, cache).2 (secs, cache).1
            k lang = (secs, cache) :=
          expand_section_directive_free ss cache secs k lang h
        rw [hx]
        exact ih
  exact hfold _

/-- **C5 counterexample**: the claim states that re-resolving an already
depth-`All` result at depth `All` is byte-identical and that a depth-`All`
result contains no unexpanded directives.  The self-referential file
`[A]\n@:A:` exceeds the 10-pass expansion cap, so its depth-`All` result
still contains the directive `@:A:`, and a second depth-`All` resolution
(a cache hit re-running the expansion) yields a different string. -/
theorem C5_counterexample_self_inclusion :
    ((setupstring ctxFiles 3 (setupstring ctxFiles 3 [] "Latin" "R.txt"
        ResolveDirectives.All).2 "Latin" "R.txt" ResolveDirectives.All).1 ≠
      (setupstring ctxFiles 3 [] "Latin" "R.txt" ResolveDirectives.All).1) ∧
    strContains ((slookup ((setupstring ctxFiles 3 [] "Latin" "R.txt"
        ResolveDirectives.All).1.getD []) "A").getD "") "@" = true := by
  decide

/-- **C5 amended**: re-resolving a cached depth-`All` result at depth `All`
is byte-identical (and leaves the cache untouched) whenever that result is
directive-free — that is, whenever the original resolution actually reached
its fixpoint within the iteration cap.  (When the cap is exceeded, unexpanded
directives remain and re-resolution differs, as the counterexample shows.) -/
theorem C5_amended_idempotent_when_directive_free (ctx : SetupStringContext)
    (n : Nat) (cache : Cache) (lang fname : String) (S : FileSections)
    (hhit : cacheLookup cache (ctx.version ++ "::" ++ lang) fname = some S)
    (hdf : directive_free S = true) :
    setupstring ctx (n + 1) cache lang fname ResolveDirectives.All =
      (some S, cache) := by
  simp only [setupstring]
  rw [hhit]
  show setupstring_hit (setupstring ctx n) cache S lang
    ResolveDirectives.All = (some S, cache)
  unfold setupstring_hit
  rw [if_pos rfl,
    resolve_sections_directive_free (setupstring ctx n) cache S lang hdf]

/-- Witness for C5: a cached, directive-free depth-`All` entry re-resolves
byte-identically. -/
theorem C5_amended_idempotent_witness :
    directive_free [("__preamble", "\n"), ("S", "hello\n")] = true ∧
    setupstring ctxFiles 4 cachePre "Latin" "X.txt" ResolveDirectives.All =
      (some [("__preamble", "\n"), ("S", "hello\n")], cachePre) :=
  ⟨by decide,
   C5_amended_idempotent_when_directive_free ctxFiles 3 cachePre "Latin"
     "X.txt" [("__preamble", "\n"), ("S", "hello\n")] (by decide)
     (by decide)⟩

/-! ## Claim C9

The key invariant: every function of the resolver family only ever *adds*
cache entries for keys that were absent; an entry present before a call is
still present, with the same value, afterwards.  In particular a cache hit
never mutates the entry it hit — the deeper resolution operates on the
clone. -/

/-- A `setupstring`-shaped continuation preserves existing cache entries. -/
def CachePreserving (ss : SS) : Prop :=
  ∀ cache lang fname r vk f S, cacheLookup cache vk f = some S →
    cacheLookup (ss cache lang fname r).2 vk f = some S

theorem cacheLookup_insert_ne :
    ∀ (c : Cache) (vk f vk' f' : String) (v : FileSections),
      ((vk, f) : String × String) ≠ (vk', f') →
      cacheLookup (cacheInsert c vk' f' v) vk f = cacheLookup c vk f
  | [], vk, f, vk', f', v, hne => by
    simp only [cacheInsert, cacheLookup]
    rw [if_neg fun hx => hne hx.symm]
  | (k0, v0) :: rest, vk, f, vk', f', v, hne => by
    simp only [cacheInsert, cacheLookup]
    by_cases h0 : k0 = (vk', f')
    · rw [if_pos h0]
      simp only [cacheLookup]
      rw [if_neg (h0 ▸ fun hx => hne hx.symm),
        if_neg (h0 ▸ fun hx => hne hx.symm)]
    · rw [if_neg h0]
      simp only [cacheLookup]
      by_cases h1 : k0 = (vk, f)
      · rw [if_pos h1, if_pos h1]
      · rw [if_neg h1, if_neg h1, cacheLookup_insert_ne rest vk f vk' f' v hne]

theorem get_loadtime_inclusion_preserves (ss : SS)
    (hss : CachePreserving ss) (cache : Cache) (secs : FileSections)
    (lang ftitle sect subs vk f : String) (S : FileSections)
    (h : cacheLookup cache vk f = some S) :
    cacheLookup (get_loadtime_inclusion ss cache secs lang ftitle sect
      subs).2 vk f = some S := by
  unfold get_loadtime_inclusion
  by_cases he : ftitle = ""
  · rw [if_pos he]
    cases slookup secs sect <;> simpa using h
  · rw [if_neg he]
    have h1 := hss cache lang (ftitle ++ ".txt") ResolveDirectives.WholeFile
      vk f S h
    split
    · split <;> simpa using h1
    · simpa using h1

theorem expandSegment_preserves (ss : SS) (hss : CachePreserving ss)
    (cache : Cache) (secs : FileSections) (lang cur : String)
    (seg : List Char) (vk f : String) (S : FileSections)
    (h : cacheLookup cache vk f = some S) :
    cacheLookup (expandSegment ss cache secs lang cur seg).2 vk f =
      some S := by
  unfold expandSegment
  cases parse_inclusion_directive seg with
  | some g =>
    exact get_loadtime_inclusion_preserves ss hss cache secs lang g.1 _ g.2.2
      vk f S h
  | none => simpa using h

theorem expandSegments_preserves (ss : SS) (hss : CachePreserving ss)
    (secs : FileSections) (lang cur : String) :
    ∀ (segs : List (List Char)) (cache : Cache) (vk f : String)
      (S : FileSections), cacheLookup cache vk f = some S →
      cacheLookup (expandSegments ss secs lang cur cache segs).2 vk f =
        some S
  | [], cache, vk, f, S, h => by simpa using h
  | seg :: rest, cache, vk, f, S, h => by
    unfold expandSegments
    rcases h1 : expandSegment ss cache secs lang cur seg with ⟨piece, c1⟩
    have hc1 : cacheLookup c1 vk f = some S := by
      have := expandSegment_preserves ss hss cache secs lang cur seg vk f S h
      rwa [h1] at this
    show cacheLookup (match expandSegments ss secs lang cur c1 rest with
      | (pieces, c2) => (piece :: pieces, c2)).2 vk f = some S
    rcases h2 : expandSegments ss secs lang cur c1 rest with ⟨pieces, c2⟩
    have hc2 : cacheLookup c2 vk f = some S := by
      have := expandSegments_preserves ss hss secs lang cur rest c1 vk f S hc1
      rwa [h2] at this
    simpa using hc2

theorem expand_inclusions_in_text_preserves (ss : SS)
    (hss : CachePreserving ss) (cache : Cache) (t : String)
    (secs : FileSections) (lang cur vk f : String) (S : FileSections)
    (h : cacheLookup cache vk f = some S) :
    cacheLookup (expand_inclusions_in_text ss cache t secs lang cur).2 vk f =
      some S := by
  unfold expand_inclusions_in_text
  rcases h1 : expandSegments ss secs lang cur cache
      (splitOnChar '\n' t.data) with ⟨pieces, c1⟩
  have := expandSegments_preserves ss hss secs lang cur
    (splitOnChar '\n' t.data) cache vk f S h
  rw [h1] at this
  simpa using this

theorem expandPasses_preserves (ss : SS) (hss : CachePreserving ss)
    (secs : FileSections) (lang key : String) :
    ∀ (n : Nat) (body : String) (cache : Cache) (vk f : String)
      (S : FileSections), cacheLookup cache vk f = some S →
      cacheLookup (expandPasses ss secs lang key n body cache).2 vk f =
        some S
  | 0, _, cache, vk, f, S, h => by simpa using h
  | n + 1, body, cache, vk, f, S, h => by
    unfold expandPasses
    rcases h1 : expand_inclusions_in_text ss cache body secs lang key
      with ⟨nb, c1⟩
    have hc1 : cacheLookup c1 vk f = some S := by
      have := expand_inclusions_in_text_preserves ss hss cache body secs lang
        key vk f S h
      rwa [h1] at this
    show cacheLookup (if nb = body then (body, c1)
      else expandPasses ss secs lang key n nb c1).2 vk f = some S
    by_cases hb : nb = body
    · rw [if_pos hb]
      simpa using hc1
    · rw [if_neg hb]
      exact expandPasses_preserves ss hss secs lang key n nb c1 vk f S hc1

theorem expand_section_inclusions_preserves (ss : SS)
    (hss : CachePreserving ss) (cache : Cache) (secs : FileSections)
    (key lang vk f : String) (S : FileSections)
    (h : cacheLookup cache vk f = some S) :
    cacheLookup (expand_section_inclusions ss cache secs key lang).2 vk f =
      some S := by
  unfold expand_section_inclusions
  cases slookup secs key with
  | none => simpa using h
  | some body =>
    have := expandPasses_preserves ss hss secs lang key 10 body cache vk f S h
    simpa using this

theorem resolve_inclusions_in_sections_preserves (ss : SS)
    (hss : CachePreserving ss) (cache : Cache) (secs : FileSections)
    (lang vk f : String) (S : FileSections)
    (h : cacheLookup cache vk f = some S) :
    cacheLookup (resolve_inclusions_in_sections ss cache secs lang).2 vk f =
      some S := by
  have hfold : ∀ (keys : List String) (st : FileSections × Cache),
      cacheLookup st.2 vk f = some S →
      cacheLookup
        ((keys.foldl
          (fun st k =>
            if k = "Rule" then st
            else expand_section_inclusions ss st.2 st.1 k lang) st)).2 vk f =
        some S := by
    intro keys
    induction keys with
    | nil => intro st hst; simpa using hst
    | cons k ks ih =>
      intro st hst
      simp only [List.foldl_cons]
      by_cases hk : k = "Rule"
      · rw [if_pos hk]
        exact ih st hst
      · rw [if_neg hk]
        exact ih _ (expand_section_inclusions_preserves ss hss st.2 st.1 k
          lang vk f S hst)
  simp only [resolve_inclusions_in_sections]
  apply hfold
  split
  · exact expand_section_inclusions_preserves ss hss cache secs "Rule" lang
      vk f S h
  · simpa using h

theorem resolve_inclusions_in_preamble_preserves (ss : SS)
    (hss : CachePreserving ss) (cache : Cache) (pre lang vk f : String)
    (S : FileSections) (h : cacheLookup cache vk f = some S) :
    cacheLookup (resolve_inclusions_in_preamble ss cache pre lang).2 vk f =
      some S :=
  expand_inclusions_in_text_preserves ss hss cache pre [] lang "__preamble"
    vk f S h

theorem setupstring_fallback_layer_preserves (ss : SS)
    (hss : CachePreserving ss) (cache : Cache) (lang fname vk f : String)
    (S : FileSections) (h : cacheLookup cache vk f = some S) :
    cacheLookup (setupstring_fallback_layer ss cache lang fname).2 vk f =
      some S := by
  unfold setupstring_fallback_layer
  split
  · simpa using h
  · have h1 := hss cache "Latin" fname ResolveDirectives.None vk f S h
    rcases hc : ss cache "Latin" fname ResolveDirectives.None with ⟨o, c1⟩
    rw [hc] at h1
    cases o <;> simpa using h1

theorem preamble_step_preserves (ss : SS) (hss : CachePreserving ss)
    (cache : Cache) (secs : FileSections) (lang vk f : String)
    (S : FileSections) (h : cacheLookup cache vk f = some S) :
    cacheLookup (preamble_step ss cache secs lang).2 vk f = some S := by
  unfold preamble_step
  cases hpre : slookup secs "__preamble" with
  | none => simpa using h
  | some pre =>
    have := resolve_inclusions_in_preamble_preserves ss hss cache pre lang
      vk f S h
    simpa using this

theorem setupstring_hit_preserves (ss : SS) (hss : CachePreserving ss)
    (cache : Cache) (secs : FileSections) (lang : String)
    (resolve : ResolveDirectives) (vk f : String) (S : FileSections)
    (h : cacheLookup cache vk f = some S) :
    cacheLookup (setupstring_hit ss cache secs lang resolve).2 vk f =
      some S := by
  unfold setupstring_hit
  split
  · exact resolve_inclusions_in_sections_preserves ss hss cache secs lang
      vk f S h
  · split
    · exact preamble_step_preserves ss hss cache secs lang vk f S h
    · exact h

theorem setupstring_read_miss_preserves (ctx : SetupStringContext) (ss : SS)
    (hss : CachePreserving ss) (cache : Cache) (lang fname : String)
    (resolve : ResolveDirectives) (file_contents : List String)
    (vk f : String) (S : FileSections)
    (h : cacheLookup cache vk f = some S)
    (hne : cacheLookup cache (ctx.version ++ "::" ++ lang) fname = none) :
    cacheLookup
      (setupstring_read_miss ctx ss cache lang fname resolve
        file_contents).2 vk f = some S := by
  have hkey : ((vk, f) : String × String) ≠
      (ctx.version ++ "::" ++ lang, fname) := by
    intro hx
    rw [show vk = ctx.version ++ "::" ++ lang from congrArg Prod.fst hx,
      show f = fname from congrArg Prod.snd hx] at h
    rw [hne] at h
    exact Option.noConfusion h
  have hfb := setupstring_fallback_layer_preserves ss hss cache lang fname
    vk f S h
  have hstep2 : cacheLookup
      (missStep2 ctx ss cache lang fname resolve file_contents).2 vk f =
      some S := by
    unfold missStep2
    split
    · exact preamble_step_preserves ss hss _ _ lang vk f S hfb
    · exact hfb
  have hstep3 : cacheLookup
      (missStep3 ctx ss cache lang fname resolve file_contents).2 vk f =
      some S := by
    unfold missStep3
    split
    · exact resolve_inclusions_in_sections_preserves ss hss _ _ lang vk f S
        hstep2
    · exact hstep2
  show cacheLookup
    (cacheInsert (missStep3 ctx ss cache lang fname resolve file_contents).2
      (ctx.version ++ "::" ++ lang) fname
      (missStep3 ctx ss cache lang fname resolve file_contents).1) vk f =
    some S
  rw [cacheLookup_insert_ne _ vk f _ fname _ hkey]
  exact hstep3

/-- The preservation invariant for `setupstring` itself, by induction on
fuel: a cache entry present before the call is unchanged after it. -/
theorem setupstring_preserves (ctx : SetupStringContext) :
    ∀ n : Nat, CachePreserving (setupstring ctx n)
  | 0 => by
    intro cache lang fname r vk f S h
    simpa using h
  | n + 1 => by
    intro cache lang fname r vk f S h
    have hss := setupstring_preserves ctx n
    simp only [setupstring]
    cases hcl : cacheLookup cache (ctx.version ++ "::" ++ lang) fname with
    | some secs =>
      simpa using setupstring_hit_preserves (setupstring ctx n) hss cache
        secs lang r vk f S h
    | none =>
      cases hread : do_read ctx (make_full_path ctx lang fname) with
      | none => simpa using h
      | some file_contents =>
        simpa using setupstring_read_miss_preserves ctx (setupstring ctx n)
          hss cache lang fname r file_contents vk f S h hcl

/-- **C9**: a resolution request that hits the cache leaves the hit entry
byte-identical: any deeper resolution triggered by the hit operates on a
clone, and the recursive calls it spawns only add entries for keys that were
absent, never touching an existing entry. -/
theorem C9_cache_entry_never_mutated (ctx : SetupStringContext) (n : Nat)
    (cache : Cache) (lang fname : String) (resolve : ResolveDirectives)
    (S : FileSections)
    (hhit : cacheLookup cache (ctx.version ++ "::" ++ lang) fname = some S) :
    cacheLookup (setupstring ctx n cache lang fname resolve).2
      (ctx.version ++ "::" ++ lang) fname = some S :=
  setupstring_preserves ctx n cache lang fname resolve
    (ctx.version ++ "::" ++ lang) fname S hhit

/-- Witness for C9: a hit on the cached entry for `Y.txt` — whose body
still contains a directive, so the deeper `All` resolution does real
expansion work and loads `G.txt` into the cache — leaves the hit entry
unchanged. -/
theorem C9_cache_entry_never_mutated_witness :
    cacheLookup cachePre "Rubrics 1960::Latin" "Y.txt" =
      some [("__preamble", "\n"), ("T", "@G:Bar:\n")] ∧
    cacheLookup (setupstring ctxFiles 5 cachePre "Latin" "Y.txt"
        ResolveDirectives.All).2 "Rubrics 1960::Latin" "Y.txt" =
      some [("__preamble", "\n"), ("T", "@G:Bar:\n")] :=
  ⟨by decide,
   C9_cache_entry_never_mutated ctxFiles 5 cachePre "Latin" "Y.txt"
     ResolveDirectives.All [("__preamble", "\n"), ("T", "@G:Bar:\n")]
     (by decide)⟩

end SetupString
